import Mathlib

/-!
Shallow embedding of the multiplayer matchmaking / duel-session core
(`src/backend/multiplayer.ts`): the module-level `matchmakingQueue` array and
`rooms` map, together with the four socket event handlers installed by
`initializeMultiplayer` (`startMatchmaking`, `cancelMatchmaking`,
`submitCorrectSolution`, `disconnect`) and the helpers `tryMatch`,
`removeFromQueue`, `handleDisconnect`, `getRandomProblem`.

Modelling conventions:
- `Date.now()` is an explicit `now : Nat` parameter on each event that reads it.
- `Math.floor(Math.random() * problems.length)` is an explicit `rand : Nat`
  parameter; the drawn index is `rand % problems.length`, which ranges over
  exactly the indices the source can draw.
- The JS `Map` is an association list with JS `Map` semantics: `set` replaces
  the value in place when the key exists (keeping its position) and appends
  otherwise; iteration is in insertion order.
- socket.io room membership is tracked as a list of (roomId, socketId) pairs:
  `socket.join` is idempotent, a broadcast `io.to(roomId).emit(...)` delivers
  one message to every current member of the room, and a disconnecting socket
  leaves all rooms before the server's `disconnect` handler runs.
- Queued sockets are connected (a disconnect removes them from the queue), so
  `sockets.get(p.socketId)?.join(roomId)` is modelled as an unconditional join.
-/

structure Player where
  socketId : String
  username : String
deriving DecidableEq

structure Room where
  id : String
  players : List Player
  problemId : String
  startTime : Nat
  finished : Bool
deriving DecidableEq

/-- One outbound socket message, as emitted by the handlers. -/
inductive Msg where
  | matchFound (roomId problemId : String)
  | gameOver (winner : String) (finishedAt : Nat)
  | opponentDisconnected
deriving DecidableEq

/-- The shared mutable state of the module: the `matchmakingQueue` array, the
`rooms` map (as an insertion-ordered association list), and the socket.io
room-membership table. -/
structure ServerState where
  queue : List Player
  rooms : List (String × Room)
  members : List (String × String)
deriving DecidableEq

/-- JS `Map.prototype.get`. -/
def mapGet (m : List (String × Room)) (k : String) : Option Room :=
  match m with
  | [] => none
  | (k₁, v) :: rest => if k₁ = k then some v else mapGet rest k

/-- JS `Map.prototype.set`: replace in place if the key exists, else append. -/
def mapSet (m : List (String × Room)) (k : String) (v : Room) : List (String × Room) :=
  match m with
  | [] => [(k, v)]
  | (k₁, v₁) :: rest => if k₁ = k then (k, v) :: rest else (k₁, v₁) :: mapSet rest k v

/-- JS `Map.prototype.delete`. -/
def mapDelete (m : List (String × Room)) (k : String) : List (String × Room) :=
  match m with
  | [] => []
  | (k₁, v₁) :: rest => if k₁ = k then rest else (k₁, v₁) :: mapDelete rest k

/-- The effect of `socket.join(roomId)`: idempotent membership insertion. -/
def joinRoom (ms : List (String × String)) (rid sid : String) : List (String × String) :=
  if (rid, sid) ∈ ms then ms else ms ++ [(rid, sid)]

/-- A disconnecting socket leaves every socket.io room. -/
def leaveAll (ms : List (String × String)) (sid : String) : List (String × String) :=
  ms.filter (fun x => !(x.2 == sid))

/-- The current members of a socket.io room, in join order: the recipients of
`io.to(rid).emit(...)`. -/
def roomMembers (ms : List (String × String)) (rid : String) : List String :=
  (ms.filter (fun x => x.1 == rid)).map Prod.snd

/-- The fixed problem catalog inside `getRandomProblem`. -/
def problems : List String :=
  ["two-sum", "reverse-linked-list", "valid-parentheses"]

/-- The body of `getRandomProblem()`: `problems[Math.floor(Math.random() * problems.length)]`,
with the random draw surfaced as the index `rand % problems.length`. -/
def getRandomProblem (rand : Nat) : String :=
  problems.getD (rand % problems.length) "two-sum"

/-- The room id `` `room-${Date.now()}` ``. -/
def roomIdOf (now : Nat) : String :=
  "room-" ++ toString now

/-- The body of `tryMatch(io)`: if fewer than two are queued, return; otherwise shift the
two head entries, build the room, `rooms.set` it, join both sockets to the
socket.io room and broadcast `matchFound` to that room. -/
def tryMatch (now rand : Nat) (st : ServerState) : ServerState × List (String × Msg) :=
  match st.queue with
  | p₁ :: p₂ :: rest =>
    let roomId := roomIdOf now
    let problemId := getRandomProblem rand
    let room : Room :=
      { id := roomId, players := [p₁, p₂], problemId := problemId
        startTime := now, finished := false }
    let members' := joinRoom (joinRoom st.members roomId p₁.socketId) roomId p₂.socketId
    ({ queue := rest, rooms := mapSet st.rooms roomId room, members := members' },
     (roomMembers members' roomId).map (fun s => (s, Msg.matchFound roomId problemId)))
  | _ => (st, [])

/-- The `startMatchmaking` handler: unconditionally push the player, then
`tryMatch`. -/
def startMatchmaking (sid username : String) (now rand : Nat) (st : ServerState) :
    ServerState × List (String × Msg) :=
  tryMatch now rand { st with queue := st.queue ++ [{ socketId := sid, username := username }] }

/-- The body of `removeFromQueue(socketId)`: `findIndex` + `splice(index, 1)` — delete the
first entry with that socket id, if any. -/
def removeFromQueue (sid : String) (q : List Player) : List Player :=
  match q with
  | [] => []
  | p :: rest => if p.socketId = sid then rest else p :: removeFromQueue sid rest

/-- The `cancelMatchmaking` handler. -/
def cancelMatchmaking (sid : String) (st : ServerState) : ServerState × List (String × Msg) :=
  ({ st with queue := removeFromQueue sid st.queue }, [])

/-- The `submitCorrectSolution` handler: if the room is absent or finished,
return; otherwise mark it finished, broadcast `gameOver` to the socket.io room
and delete the registry entry.  (The `finished := true` write is immediately
followed by the delete, so the net registry effect is the deletion.) -/
def submitCorrectSolution (sid roomId : String) (now : Nat) (st : ServerState) :
    ServerState × List (String × Msg) :=
  match mapGet st.rooms roomId with
  | none => (st, [])
  | some room =>
    if room.finished then (st, [])
    else
      ({ st with rooms := mapDelete st.rooms roomId },
       (roomMembers st.members roomId).map (fun s => (s, Msg.gameOver sid now)))

/-- The loop body of `handleDisconnect`: walk the registry in iteration order;
at the first room containing the socket id, delete it and report its id for
the broadcast, then break. -/
def handleDisconnectRooms (sid : String) (rooms : List (String × Room)) :
    List (String × Room) × Option String :=
  match rooms with
  | [] => ([], none)
  | (rid, room) :: rest =>
    if room.players.any (fun p => p.socketId == sid) then (rest, some rid)
    else
      let res := handleDisconnectRooms sid rest
      ((rid, room) :: res.1, res.2)

/-- The `disconnect` handler: the closing socket has already left all
socket.io rooms; then `removeFromQueue(socket.id)` and `handleDisconnect`,
which broadcasts `opponentDisconnected` to the first room containing the
socket and deletes it. -/
def disconnect (sid : String) (st : ServerState) : ServerState × List (String × Msg) :=
  let ms := leaveAll st.members sid
  let q := removeFromQueue sid st.queue
  match handleDisconnectRooms sid st.rooms with
  | (rooms', some rid) =>
    ({ queue := q, rooms := rooms', members := ms },
     (roomMembers ms rid).map (fun s => (s, Msg.opponentDisconnected)))
  | (rooms', none) => ({ queue := q, rooms := rooms', members := ms }, [])

/-- One inbound event, with the wall clock and the random draw surfaced as
parameters. -/
inductive Event where
  | startMatchmaking (sid username : String) (now rand : Nat)
  | cancelMatchmaking (sid : String)
  | submitCorrectSolution (sid roomId : String) (now : Nat)
  | disconnect (sid : String)
deriving DecidableEq

/-- Dispatch one inbound event, returning the new state and the outbound
messages as (recipient socket id, message) pairs. -/
def step (st : ServerState) : Event → ServerState × List (String × Msg)
  | .startMatchmaking sid u now rand => startMatchmaking sid u now rand st
  | .cancelMatchmaking sid => cancelMatchmaking sid st
  | .submitCorrectSolution sid rid now => submitCorrectSolution sid rid now st
  | .disconnect sid => disconnect sid st

/-- The state at module load: empty queue, empty registry. -/
def initState : ServerState :=
  { queue := [], rooms := [], members := [] }

/-- Run a list of events, accumulating all outbound messages. -/
def run (st : ServerState) : List Event → ServerState × List (String × Msg)
  | [] => (st, [])
  | e :: rest =>
    let r₁ := step st e
    let r₂ := run r₁.1 rest
    (r₂.1, r₁.2 ++ r₂.2)

/-- States reachable from the empty state by any event sequence. -/
inductive Reachable : ServerState → Prop where
  | init : Reachable initState
  | next (st : ServerState) (e : Event) : Reachable st → Reachable (step st e).1

/-- How many times a connection id occurs across the waiting queue and the
players of all registered sessions combined. -/
def occursCount (st : ServerState) (c : String) : Nat :=
  st.queue.countP (fun p => p.socketId == c) +
    (st.rooms.map (fun kv => kv.2.players.countP (fun p => p.socketId == c))).sum

/-- States reachable when no connection ever issues a join request while it is
already queued or in a session (the discipline the spec's enqueue contract
assumes). -/
inductive ReachableNoDup : ServerState → Prop where
  | init : ReachableNoDup initState
  | next (st : ServerState) (e : Event) : ReachableNoDup st →
      (∀ sid u now rand, e = .startMatchmaking sid u now rand → occursCount st sid = 0) →
      ReachableNoDup (step st e).1

/-! ### Concrete fixture states used by witnesses -/

/-- A session between "a" and "b", as `tryMatch` would build it at time 7. -/
def roomA : Room :=
  { id := "room-7", players := [⟨"a", "ua"⟩, ⟨"b", "ub"⟩], problemId := "two-sum"
    startTime := 7, finished := false }

/-- A second session also containing "a", built at time 8. -/
def roomB : Room :=
  { id := "room-8", players := [⟨"a", "ua"⟩, ⟨"d", "ud"⟩], problemId := "valid-parentheses"
    startTime := 8, finished := false }

/-- A state holding the single active session `roomA`. -/
def stA : ServerState :=
  { queue := [], rooms := [("room-7", roomA)]
    members := [("room-7", "a"), ("room-7", "b")] }

/-- A state in which "a" is (anomalously) in two sessions at once. -/
def stB : ServerState :=
  { queue := [], rooms := [("room-7", roomA), ("room-8", roomB)]
    members := [("room-7", "a"), ("room-7", "b"), ("room-8", "a"), ("room-8", "d")] }

/-- The session the first same-instant pairing (at time 5) creates. -/
def roomAB5 : Room :=
  { id := "room-5", players := [⟨"a", "ua"⟩, ⟨"b", "ub"⟩], problemId := "two-sum"
    startTime := 5, finished := false }

/-- The state inside the four-join trace just before the second pairing at
time 5: "c" and "d" queued, the first same-instant session still registered. -/
def stC : ServerState :=
  { queue := [⟨"c", "uc"⟩, ⟨"d", "ud"⟩], rooms := [("room-5", roomAB5)]
    members := [("room-5", "a"), ("room-5", "b")] }

/-! ### Map lemmas -/

theorem mapGet_mapSet_self (m : List (String × Room)) (k : String) (v : Room) :
    mapGet (mapSet m k v) k = some v := by
  induction m with
  | nil => simp [mapSet, mapGet]
  | cons kv rest ih =>
    obtain ⟨k₁, v₁⟩ := kv
    by_cases h : k₁ = k
    · simp [mapSet, mapGet, h]
    · simp [mapSet, mapGet, h, ih]

theorem mapSet_length_of_mem (m : List (String × Room)) (k : String) (v w : Room)
    (h : mapGet m k = some w) : (mapSet m k v).length = m.length := by
  induction m with
  | nil => simp [mapGet] at h
  | cons kv rest ih =>
    obtain ⟨k₁, v₁⟩ := kv
    by_cases hk : k₁ = k
    · simp [mapSet, hk]
    · simp only [mapGet, if_neg hk] at h
      simp [mapSet, hk, ih h]

theorem mapGet_mapDelete_none (m : List (String × Room)) (k : String)
    (h : (m.map Prod.fst).Nodup) : mapGet (mapDelete m k) k = none := by
  induction m with
  | nil => simp [mapDelete, mapGet]
  | cons kv rest ih =>
    obtain ⟨k₁, v₁⟩ := kv
    simp only [List.map_cons, List.nodup_cons] at h
    by_cases hk : k₁ = k
    · subst hk
      cases hrest : mapGet rest k₁ with
      | none => simpa [mapDelete] using hrest
      | some w =>
        exfalso
        apply h.1
        clear ih h
        induction rest with
        | nil => simp [mapGet] at hrest
        | cons kv₂ rest₂ ih₂ =>
          obtain ⟨k₂, v₂⟩ := kv₂
          by_cases h₂ : k₂ = k₁
          · simp [h₂]
          · simp only [mapGet, if_neg h₂] at hrest
            simp [ih₂ hrest]
    · simp [mapDelete, hk, mapGet, ih h.2]

theorem mapSet_map_sum_le (m : List (String × Room)) (k : String) (v : Room)
    (f : String × Room → Nat) :
    ((mapSet m k v).map f).sum ≤ (m.map f).sum + f (k, v) := by
  induction m with
  | nil => simp [mapSet]
  | cons kv rest ih =>
    obtain ⟨k₁, v₁⟩ := kv
    by_cases hk : k₁ = k
    · simp only [mapSet, if_pos hk, List.map_cons, List.sum_cons]
      omega
    · simp only [mapSet, if_neg hk, List.map_cons, List.sum_cons]
      omega

theorem mapSet_map_sum_fresh (m : List (String × Room)) (k : String) (v : Room)
    (f : String × Room → Nat) (h : mapGet m k = none) :
    ((mapSet m k v).map f).sum = (m.map f).sum + f (k, v) := by
  induction m with
  | nil => simp [mapSet]
  | cons kv rest ih =>
    obtain ⟨k₁, v₁⟩ := kv
    by_cases hk : k₁ = k
    · simp [mapGet, hk] at h
    · simp only [mapGet, if_neg hk] at h
      simp only [mapSet, if_neg hk, List.map_cons, List.sum_cons, ih h]
      omega

theorem mapDelete_map_sum_le (m : List (String × Room)) (k : String)
    (f : String × Room → Nat) :
    ((mapDelete m k).map f).sum ≤ (m.map f).sum := by
  induction m with
  | nil => simp [mapDelete]
  | cons kv rest ih =>
    obtain ⟨k₁, v₁⟩ := kv
    by_cases hk : k₁ = k
    · simp only [mapDelete, if_pos hk, List.map_cons, List.sum_cons]
      omega
    · simp only [mapDelete, if_neg hk, List.map_cons, List.sum_cons]
      omega

/-! ### removeFromQueue lemmas -/

theorem removeFromQueue_countP_le (sid : String) (q : List Player) (p : Player → Bool) :
    (removeFromQueue sid q).countP p ≤ q.countP p := by
  induction q with
  | nil => simp [removeFromQueue]
  | cons x rest ih =>
    by_cases hx : x.socketId = sid
    · simp only [removeFromQueue, if_pos hx, List.countP_cons]
      omega
    · simp only [removeFromQueue, if_neg hx, List.countP_cons]
      omega

theorem removeFromQueue_of_not_mem (sid : String) (q : List Player)
    (h : ∀ x ∈ q, x.socketId ≠ sid) : removeFromQueue sid q = q := by
  induction q with
  | nil => rfl
  | cons x rest ih =>
    have hx : x.socketId ≠ sid := h x (by simp)
    simp only [removeFromQueue, if_neg hx]
    rw [ih (fun y hy => h y (by simp [hy]))]

theorem removeFromQueue_first (sid : String) (l r : List Player) (e : Player)
    (hl : ∀ x ∈ l, x.socketId ≠ sid) (he : e.socketId = sid) :
    removeFromQueue sid (l ++ e :: r) = l ++ r := by
  induction l with
  | nil => simp [removeFromQueue, he]
  | cons x rest ih =>
    have hx : x.socketId ≠ sid := hl x (by simp)
    simp [removeFromQueue, if_neg hx, ih (fun y hy => hl y (by simp [hy]))]

/-! ### handleDisconnectRooms lemmas -/

theorem handleDisconnectRooms_none (sid : String) (rooms : List (String × Room))
    (h : ∀ kv ∈ rooms, ∀ p ∈ kv.2.players, p.socketId ≠ sid) :
    handleDisconnectRooms sid rooms = (rooms, none) := by
  induction rooms with
  | nil => rfl
  | cons kv rest ih =>
    obtain ⟨rid, room⟩ := kv
    have hroom : room.players.any (fun p => p.socketId == sid) = false := by
      simp only [List.any_eq_false, beq_iff_eq]
      exact fun p hp => h (rid, room) (by simp) p hp
    simp [handleDisconnectRooms, hroom, ih (fun kv₂ hkv => h kv₂ (by simp [hkv]))]

theorem handleDisconnectRooms_found (sid rid : String) (room : Room)
    (l r : List (String × Room))
    (hl : ∀ kv ∈ l, ∀ p ∈ kv.2.players, p.socketId ≠ sid)
    (hit : ∃ p ∈ room.players, p.socketId = sid) :
    handleDisconnectRooms sid (l ++ (rid, room) :: r) = (l ++ r, some rid) := by
  induction l with
  | nil =>
    have hroom : room.players.any (fun p => p.socketId == sid) = true := by
      simp only [List.any_eq_true, beq_iff_eq]
      exact hit
    simp [handleDisconnectRooms, hroom]
  | cons kv rest ih =>
    obtain ⟨rid₁, room₁⟩ := kv
    have hroom₁ : room₁.players.any (fun p => p.socketId == sid) = false := by
      simp only [List.any_eq_false, beq_iff_eq]
      exact fun p hp => hl (rid₁, room₁) (by simp) p hp
    simp [handleDisconnectRooms, hroom₁, ih (fun kv₂ hkv => hl kv₂ (by simp [hkv]))]

theorem handleDisconnectRooms_map_sum_le (sid : String) (rooms : List (String × Room))
    (f : String × Room → Nat) :
    ((handleDisconnectRooms sid rooms).1.map f).sum ≤ (rooms.map f).sum := by
  induction rooms with
  | nil => simp [handleDisconnectRooms]
  | cons kv rest ih =>
    obtain ⟨rid, room⟩ := kv
    by_cases hroom : room.players.any (fun p => p.socketId == sid) = true
    · simp only [handleDisconnectRooms, if_pos hroom, List.map_cons, List.sum_cons]
      omega
    · simp only [handleDisconnectRooms, if_neg hroom, List.map_cons, List.sum_cons]
      omega

/-! ### Membership lemmas -/

theorem mem_roomMembers_iff (ms : List (String × String)) (rid s : String) :
    s ∈ roomMembers ms rid ↔ (rid, s) ∈ ms := by
  simp only [roomMembers, List.mem_map, List.mem_filter, beq_iff_eq]
  constructor
  · rintro ⟨⟨r₁, s₁⟩, ⟨hmem, hr⟩, hs⟩
    simp only at hr hs
    subst hr; subst hs; exact hmem
  · intro h
    exact ⟨(rid, s), ⟨h, rfl⟩, rfl⟩

theorem roomMembers_joinRoom_new (ms : List (String × String)) (rid s : String)
    (h : (rid, s) ∉ ms) :
    roomMembers (joinRoom ms rid s) rid = roomMembers ms rid ++ [s] := by
  simp [joinRoom, h, roomMembers, List.filter_append]

theorem filter_snd_comm (l : List (String × String)) (f g : String → Bool) :
    ((l.filter (fun x => f x.1)).map Prod.snd).filter g =
      ((l.filter (fun x => g x.2)).filter (fun x => f x.1)).map Prod.snd := by
  induction l with
  | nil => rfl
  | cons x rest ih =>
    obtain ⟨a, b⟩ := x
    by_cases hf : f a <;> by_cases hg : g b <;>
      simp only [List.filter_cons, hf, hg, if_pos, if_neg, List.map_cons, ih,
        Bool.false_eq_true, if_false, if_true]

theorem roomMembers_leaveAll (ms : List (String × String)) (c rid : String) :
    roomMembers (leaveAll ms c) rid = (roomMembers ms rid).filter (fun s => !(s == c)) := by
  have h := filter_snd_comm ms (fun r => r == rid) (fun s => !(s == c))
  simpa [roomMembers, leaveAll] using h.symm


/-! ### Problem catalog -/

theorem getRandomProblem_mem (rand : Nat) : getRandomProblem rand ∈ problems := by
  have h3 : rand % 3 = 0 ∨ rand % 3 = 1 ∨ rand % 3 = 2 := by omega
  rcases h3 with h | h | h <;> simp [getRandomProblem, problems, h]

/-! ### occursCount lemmas -/

theorem occursCount_tryMatch_le (now rand : Nat) (st : ServerState) (c : String) :
    occursCount (tryMatch now rand st).1 c ≤ occursCount st c := by
  cases hq : st.queue with
  | nil => simp [tryMatch, hq]
  | cons p₁ tail =>
    cases tail with
    | nil => simp [tryMatch, hq]
    | cons p₂ rest =>
      have hle := mapSet_map_sum_le st.rooms (roomIdOf now)
        { id := roomIdOf now, players := [p₁, p₂], problemId := getRandomProblem rand,
          startTime := now, finished := false }
        (fun kv => kv.2.players.countP (fun p => p.socketId == c))
      simp only [tryMatch, hq, occursCount, List.countP_cons, List.countP_nil] at hle ⊢
      omega

theorem occursCount_tryMatch_fresh (now rand : Nat) (st : ServerState) (c : String)
    (h : mapGet st.rooms (roomIdOf now) = none) :
    occursCount (tryMatch now rand st).1 c = occursCount st c := by
  cases hq : st.queue with
  | nil => simp [tryMatch, hq]
  | cons p₁ tail =>
    cases tail with
    | nil => simp [tryMatch, hq]
    | cons p₂ rest =>
      have heq := mapSet_map_sum_fresh st.rooms (roomIdOf now)
        { id := roomIdOf now, players := [p₁, p₂], problemId := getRandomProblem rand,
          startTime := now, finished := false }
        (fun kv => kv.2.players.countP (fun p => p.socketId == c)) h
      simp only [tryMatch, hq, occursCount, List.countP_cons, List.countP_nil] at heq ⊢
      omega

theorem occursCount_startMatchmaking_le (sid u : String) (now rand : Nat)
    (st : ServerState) (c : String) :
    occursCount (startMatchmaking sid u now rand st).1 c ≤
      occursCount st c + (if sid = c then 1 else 0) := by
  have h := occursCount_tryMatch_le now rand
    { st with queue := st.queue ++ [{ socketId := sid, username := u }] } c
  simp only [startMatchmaking]
  refine le_trans h ?_
  simp only [occursCount, List.countP_append, List.countP_cons, List.countP_nil]
  by_cases hsc : sid = c
  all_goals simp [hsc]
  all_goals omega

theorem occursCount_cancel_le (sid : String) (st : ServerState) (c : String) :
    occursCount (cancelMatchmaking sid st).1 c ≤ occursCount st c := by
  have h := removeFromQueue_countP_le sid st.queue (fun p => p.socketId == c)
  simp only [cancelMatchmaking, occursCount]
  omega

theorem occursCount_submit_le (sid rid : String) (now : Nat) (st : ServerState) (c : String) :
    occursCount (submitCorrectSolution sid rid now st).1 c ≤ occursCount st c := by
  cases hm : mapGet st.rooms rid with
  | none => simp [submitCorrectSolution, hm]
  | some room =>
    by_cases hf : room.finished
    · simp [submitCorrectSolution, hm, hf]
    · have h := mapDelete_map_sum_le st.rooms rid
        (fun kv => kv.2.players.countP (fun p => p.socketId == c))
      simp [submitCorrectSolution, hm, hf, occursCount]
      omega

theorem disconnect_fst (sid : String) (st : ServerState) :
    (disconnect sid st).1 =
      { queue := removeFromQueue sid st.queue,
        rooms := (handleDisconnectRooms sid st.rooms).1,
        members := leaveAll st.members sid } := by
  rcases hh : handleDisconnectRooms sid st.rooms with ⟨rooms', o⟩
  cases o <;> simp [disconnect, hh]

theorem occursCount_disconnect_le (sid : String) (st : ServerState) (c : String) :
    occursCount (disconnect sid st).1 c ≤ occursCount st c := by
  rw [disconnect_fst]
  have h₁ := removeFromQueue_countP_le sid st.queue (fun p => p.socketId == c)
  have h₂ := handleDisconnectRooms_map_sum_le sid st.rooms
    (fun kv => kv.2.players.countP (fun p => p.socketId == c))
  simp only [occursCount]
  omega

/-! ### Claim C3: queue/session mutual exclusion -/

/-- C3: the claimed invariant — "in every state reachable from the empty state,
each connectionId appears at most once across the waiting queue and all active
sessions combined" — is false for the code: `startMatchmaking` pushes
unconditionally, so a connection that joins twice is paired with itself and
appears twice in the resulting session's player list. -/
theorem C3_mutual_exclusion_counterexample :
    ¬ (∀ st : ServerState, Reachable st → ∀ c : String, occursCount st c ≤ 1) := by
  intro h
  have h₂ := h _
    (Reachable.next _ (.startMatchmaking "p" "u" 1 1)
      (Reachable.next initState (.startMatchmaking "p" "u" 0 0) Reachable.init)) "p"
  exact absurd h₂ (by decide)

/-- C3 (amended): the mutual-exclusion invariant holds on every state reachable
by event sequences in which no connection issues a join request while it is
already queued or in a session; under that discipline each connectionId occurs
at most once across the queue and all registered sessions combined. -/
theorem C3_mutual_exclusion_amended (st : ServerState) (h : ReachableNoDup st)
    (c : String) : occursCount st c ≤ 1 := by
  induction h with
  | init => simp [occursCount, initState]
  | next st e hst hguard ih =>
    cases e with
    | startMatchmaking sid u now rand =>
      have hg : occursCount st sid = 0 := hguard sid u now rand rfl
      have hle := occursCount_startMatchmaking_le sid u now rand st c
      by_cases hsc : sid = c
      · subst hsc
        simp at hle
        simp only [step]
        omega
      · simp [hsc] at hle
        simp only [step]
        omega
    | cancelMatchmaking sid =>
      exact le_trans (occursCount_cancel_le sid st c) ih
    | submitCorrectSolution sid rid now =>
      exact le_trans (occursCount_submit_le sid rid now st c) ih
    | disconnect sid =>
      exact le_trans (occursCount_disconnect_le sid st c) ih

/-- C3 witness: a concrete disciplined trace (a single join by "a") satisfies
the amended invariant. -/
theorem C3_mutual_exclusion_amended_witness :
    occursCount (step initState (.startMatchmaking "a" "u" 0 0)).1 "a" ≤ 1 :=
  C3_mutual_exclusion_amended _
    (ReachableNoDup.next initState (.startMatchmaking "a" "u" 0 0) ReachableNoDup.init
      (fun sid u now rand he => by cases he; rfl)) "a"

/-! ### Claim C1: first-writer-wins finalize -/

/-- C1: a `submitCorrectSolution` naming a roomId that is absent from the
registry, or whose room is already finished, returns without mutating any
state and sends no message; the first submission naming an active room deletes
it from the registry and broadcasts `gameOver` to the room, after which (keys
being unique) every further submission naming the same roomId is a complete
no-op — first writer wins. -/
theorem C1_first_writer_wins (st : ServerState) (c rid : String) (now : Nat) :
    (mapGet st.rooms rid = none → submitCorrectSolution c rid now st = (st, [])) ∧
    (∀ room, mapGet st.rooms rid = some room → room.finished = true →
      submitCorrectSolution c rid now st = (st, [])) ∧
    (∀ room, mapGet st.rooms rid = some room → room.finished = false →
      (st.rooms.map Prod.fst).Nodup →
      submitCorrectSolution c rid now st =
        ({ st with rooms := mapDelete st.rooms rid },
         (roomMembers st.members rid).map (fun s => (s, Msg.gameOver c now))) ∧
      ∀ c₂ now₂,
        submitCorrectSolution c₂ rid now₂ (submitCorrectSolution c rid now st).1 =
          ((submitCorrectSolution c rid now st).1, [])) := by
  refine ⟨?_, ?_, ?_⟩
  · intro h
    simp [submitCorrectSolution, h]
  · intro room h hf
    simp [submitCorrectSolution, h, hf]
  · intro room h hf hnodup
    have heq : submitCorrectSolution c rid now st =
        ({ st with rooms := mapDelete st.rooms rid },
         (roomMembers st.members rid).map (fun s => (s, Msg.gameOver c now))) := by
      simp [submitCorrectSolution, h, hf]
    refine ⟨heq, ?_⟩
    intro c₂ now₂
    rw [heq]
    have hnone : mapGet (mapDelete st.rooms rid) rid = none :=
      mapGet_mapDelete_none st.rooms rid hnodup
    simp [submitCorrectSolution, hnone]

/-- C1 witness: in the concrete state `stA`, "a" submits first and wins; a
second submission by "b" for the same room is a complete no-op. -/
theorem C1_first_writer_wins_witness :
    submitCorrectSolution "b" "room-7" 12 (submitCorrectSolution "a" "room-7" 9 stA).1 =
      ((submitCorrectSolution "a" "room-7" 9 stA).1, []) :=
  ((C1_first_writer_wins stA "a" "room-7" 9).2.2 roomA (by decide) (by decide)
    (by decide)).2 "b" 12

/-! ### Claim C2: FIFO pairing -/

/-- C2: when at least two participants wait, `tryMatch` removes exactly the
two head entries — the two longest-waiting participants, in arrival order —
stores them as the new session's players and leaves the rest of the queue
unchanged; with fewer than two waiting it changes nothing.  In particular if
A, B, C join in that order from the empty state, the first pair formed is
exactly (A, B) and C remains queued alone. -/
theorem C2_fifo_pairing (st : ServerState) (now rand : Nat) :
    (∀ p₁ p₂ rest, st.queue = p₁ :: p₂ :: rest →
      (tryMatch now rand st).1.queue = rest ∧
      mapGet (tryMatch now rand st).1.rooms (roomIdOf now) =
        some { id := roomIdOf now, players := [p₁, p₂],
               problemId := getRandomProblem rand, startTime := now, finished := false }) ∧
    (st.queue.length < 2 → tryMatch now rand st = (st, [])) ∧
    (∀ a b c ua ub uc : String, ∀ n₁ r₁ n₂ r₂ n₃ r₃ : Nat,
      let final := (run initState
        [.startMatchmaking a ua n₁ r₁, .startMatchmaking b ub n₂ r₂,
         .startMatchmaking c uc n₃ r₃]).1
      final.queue = [⟨c, uc⟩] ∧
      final.rooms = [(roomIdOf n₂,
        { id := roomIdOf n₂, players := [⟨a, ua⟩, ⟨b, ub⟩],
          problemId := getRandomProblem r₂, startTime := n₂, finished := false })]) := by
  refine ⟨?_, ?_, ?_⟩
  · intro p₁ p₂ rest hq
    constructor
    · simp [tryMatch, hq]
    · simp [tryMatch, hq, mapGet_mapSet_self]
  · intro hlen
    cases hq : st.queue with
    | nil => simp [tryMatch, hq]
    | cons p₁ tail =>
      cases tail with
      | nil => simp [tryMatch, hq]
      | cons p₂ rest => simp [hq] at hlen; omega
  · intro a b c ua ub uc n₁ r₁ n₂ r₂ n₃ r₃
    constructor
    · simp [run, step, startMatchmaking, tryMatch, initState]
    · simp [run, step, startMatchmaking, tryMatch, initState, mapSet]

/-- C2 witness: a three-deep queue pairs its two head entries and leaves the
third waiting. -/
theorem C2_fifo_pairing_witness :
    (tryMatch 3 0 ⟨[⟨"a", "ua"⟩, ⟨"b", "ub"⟩, ⟨"c", "uc"⟩], [], []⟩).1.queue = [⟨"c", "uc"⟩] ∧
    mapGet (tryMatch 3 0 ⟨[⟨"a", "ua"⟩, ⟨"b", "ub"⟩, ⟨"c", "uc"⟩], [], []⟩).1.rooms
        (roomIdOf 3) =
      some { id := roomIdOf 3, players := [⟨"a", "ua"⟩, ⟨"b", "ub"⟩],
             problemId := getRandomProblem 0, startTime := 3, finished := false } :=
  (C2_fifo_pairing ⟨[⟨"a", "ua"⟩, ⟨"b", "ub"⟩, ⟨"c", "uc"⟩], [], []⟩ 3 0).1
    ⟨"a", "ua"⟩ ⟨"b", "ub"⟩ [⟨"c", "uc"⟩] rfl

/-! ### Claim C4: enqueue idempotence on duplicate joins -/

/-- C4: the claimed idempotence — "two consecutive join requests from the same
connection yield the same queue as one" — is false for the code: after a
second `startMatchmaking` from the already-queued connection "p", the queue
differs (the two entries are paired off, leaving an empty queue and a session
holding "p" twice). -/
theorem C4_enqueue_idempotence_counterexample :
    ¬ ((run initState [.startMatchmaking "p" "u" 0 0, .startMatchmaking "p" "u" 1 1]).1.queue =
       (run initState [.startMatchmaking "p" "u" 0 0]).1.queue) := by
  decide

/-- C4 (amended): the push in `startMatchmaking` is unconditional, so a join
request from a connection whose id is already queued appends a second entry —
duplicate joins are additive, not idempotent: absent a roomId collision the
connection afterwards occurs exactly one more time (hence at least twice)
across the queue and all sessions combined. -/
theorem C4_enqueue_additive (st : ServerState) (sid u : String) (now rand : Nat)
    (hmem : 1 ≤ st.queue.countP (fun p => p.socketId == sid))
    (hfresh : mapGet st.rooms (roomIdOf now) = none) :
    occursCount (startMatchmaking sid u now rand st).1 sid = occursCount st sid + 1 ∧
    2 ≤ occursCount (startMatchmaking sid u now rand st).1 sid := by
  have heq := occursCount_tryMatch_fresh now rand
    { st with queue := st.queue ++ [{ socketId := sid, username := u }] } sid hfresh
  have h1 : occursCount (startMatchmaking sid u now rand st).1 sid = occursCount st sid + 1 := by
    simp only [startMatchmaking]
    rw [heq]
    simp only [occursCount, List.countP_append, List.countP_cons, List.countP_nil,
      beq_self_eq_true, if_true, if_pos]
    omega
  refine ⟨h1, ?_⟩
  have h2 : 1 ≤ occursCount st sid := by
    unfold occursCount
    omega
  omega

/-- C4 witness: "p" is queued once; a second join from "p" makes it occur
twice. -/
theorem C4_enqueue_additive_witness :
    2 ≤ occursCount (startMatchmaking "p" "u" 0 0
      ⟨[{ socketId := "p", username := "u" }], [], []⟩).1 "p" :=
  (C4_enqueue_additive ⟨[{ socketId := "p", username := "u" }], [], []⟩ "p" "u" 0 0
    (by decide) (by decide)).2

/-! ### Claim C5: session id uniqueness -/

/-- C5: the claimed uniqueness — "a generated session id is never already in
use, including within the same wall-clock instant" — is false: ids are
`room-<timestamp>` alone, and in the concrete state `stC` (reached inside a
four-join trace all at time 5) the id about to be generated for the queued
pair equals the id of the session already in the registry. -/
theorem C5_session_id_uniqueness_counterexample :
    ¬ (∀ (st : ServerState) (now rand : Nat), 2 ≤ st.queue.length →
        mapGet st.rooms (roomIdOf now) = none) := by
  intro h
  exact absurd (h stC 5 0 (by decide)) (by decide)

/-- C5 (amended): the session id is derived from the wall-clock timestamp
alone (`room-<t>`), so a pairing at the timestamp of an existing session
reuses that session's id: the new session is stored under the same key and
replaces the earlier session in place — the registry does not grow and the
earlier session is silently destroyed. -/
theorem C5_session_id_timestamp_collision (st : ServerState) (now rand : Nat)
    (p₁ p₂ : Player) (rest : List Player) (old : Room)
    (hq : st.queue = p₁ :: p₂ :: rest)
    (hold : mapGet st.rooms (roomIdOf now) = some old) :
    mapGet (tryMatch now rand st).1.rooms (roomIdOf now) =
      some { id := roomIdOf now, players := [p₁, p₂],
             problemId := getRandomProblem rand, startTime := now, finished := false } ∧
    (tryMatch now rand st).1.rooms.length = st.rooms.length := by
  constructor
  · simp [tryMatch, hq, mapGet_mapSet_self]
  · simp only [tryMatch, hq]
    exact mapSet_length_of_mem st.rooms (roomIdOf now) _ old hold

/-- C5 witness: in `stC`, pairing "c" and "d" at time 5 overwrites the
session "a"/"b" created at time 5. -/
theorem C5_session_id_timestamp_collision_witness :
    mapGet (tryMatch 5 1 stC).1.rooms (roomIdOf 5) =
      some { id := roomIdOf 5, players := [⟨"c", "uc"⟩, ⟨"d", "ud"⟩],
             problemId := getRandomProblem 1, startTime := 5, finished := false } ∧
    (tryMatch 5 1 stC).1.rooms.length = stC.rooms.length :=
  C5_session_id_timestamp_collision stC 5 1 ⟨"c", "uc"⟩ ⟨"d", "ud"⟩ [] roomAB5
    rfl (by decide)

/-! ### Claim C9: queue removal takes only the first occurrence -/

/-- C9: `removeFromQueue` deletes exactly the lowest-index entry whose
socketId matches — nothing when none matches — and every other entry,
including any later duplicate with the same socketId, stays in its original
relative order. -/
theorem C9_remove_first_occurrence (q : List Player) (c : String) :
    ((∀ p ∈ q, p.socketId ≠ c) → removeFromQueue c q = q) ∧
    (∀ l e r, q = l ++ e :: r → (∀ p ∈ l, p.socketId ≠ c) → e.socketId = c →
      removeFromQueue c q = l ++ r) := by
  constructor
  · exact removeFromQueue_of_not_mem c q
  · intro l e r hq hl he
    subst hq
    exact removeFromQueue_first c l r e hl he

/-- C9 witness: with "z" queued twice, removal deletes only the first "z"
entry and keeps the rest, later duplicate included, in order. -/
theorem C9_remove_first_occurrence_witness :
    removeFromQueue "z" [⟨"x", "u1"⟩, ⟨"z", "u2"⟩, ⟨"y", "u3"⟩, ⟨"z", "u4"⟩] =
      [⟨"x", "u1"⟩, ⟨"y", "u3"⟩, ⟨"z", "u4"⟩] :=
  (C9_remove_first_occurrence [⟨"x", "u1"⟩, ⟨"z", "u2"⟩, ⟨"y", "u3"⟩, ⟨"z", "u4"⟩] "z").2
    [⟨"x", "u1"⟩] ⟨"z", "u2"⟩ [⟨"y", "u3"⟩, ⟨"z", "u4"⟩] rfl (by decide) rfl

/-! ### Claim C10: disconnect abandons at most one session -/

/-- C10: on a connection close, session cleanup removes exactly the first
session in registry iteration order containing the socket id (so at most one
session leaves the registry); any later session containing the same id stays,
and the event's messages are addressed only to the members of the removed
session's room. -/
theorem C10_disconnect_at_most_one (st : ServerState) (c rid : String) (room : Room)
    (l r : List (String × Room))
    (hrooms : st.rooms = l ++ (rid, room) :: r)
    (hl : ∀ kv ∈ l, ∀ p ∈ kv.2.players, p.socketId ≠ c)
    (hit : ∃ p ∈ room.players, p.socketId = c) :
    (disconnect c st).1.rooms = l ++ r ∧
    st.rooms.length = (disconnect c st).1.rooms.length + 1 ∧
    (disconnect c st).2 =
      (roomMembers (leaveAll st.members c) rid).map
        (fun s => (s, Msg.opponentDisconnected)) := by
  have hfound := handleDisconnectRooms_found c rid room l r hl hit
  refine ⟨?_, ?_, ?_⟩
  · simp [disconnect, hrooms, hfound]
  · simp [disconnect, hrooms, hfound]
    omega
  · simp [disconnect, hrooms, hfound]

/-- C10 witness: in `stB` the socket "a" is in both registered sessions;
its disconnect removes only the first ("room-7"), keeps "room-8", and
notifies only "b". -/
theorem C10_disconnect_at_most_one_witness :
    (disconnect "a" stB).1.rooms = [("room-8", roomB)] ∧
    stB.rooms.length = (disconnect "a" stB).1.rooms.length + 1 ∧
    (disconnect "a" stB).2 =
      (roomMembers (leaveAll stB.members "a") "room-7").map
        (fun s => (s, Msg.opponentDisconnected)) :=
  C10_disconnect_at_most_one stB "a" "room-7" roomA [] [("room-8", roomB)]
    rfl (by decide) (by decide)

/-! ### Claim C7: single match-found per pair -/

/-- C7: when a pair is formed (into a room no socket currently occupies), the
broadcast delivers exactly one `matchFound` to each of the two paired
connections, both carrying the same roomId and the same problemId, and the
problemId is drawn from the fixed catalog. -/
theorem C7_single_match_found (st : ServerState) (now rand : Nat)
    (p₁ p₂ : Player) (rest : List Player)
    (hq : st.queue = p₁ :: p₂ :: rest)
    (hne : p₁.socketId ≠ p₂.socketId)
    (hfresh : roomMembers st.members (roomIdOf now) = []) :
    (tryMatch now rand st).2 =
      [(p₁.socketId, Msg.matchFound (roomIdOf now) (getRandomProblem rand)),
       (p₂.socketId, Msg.matchFound (roomIdOf now) (getRandomProblem rand))] ∧
    getRandomProblem rand ∈ problems := by
  have h₁ : (roomIdOf now, p₁.socketId) ∉ st.members := by
    intro hmem
    have h := (mem_roomMembers_iff st.members (roomIdOf now) p₁.socketId).mpr hmem
    rw [hfresh] at h
    simp at h
  have h₂ : roomMembers (joinRoom st.members (roomIdOf now) p₁.socketId) (roomIdOf now) =
      [p₁.socketId] := by
    rw [roomMembers_joinRoom_new _ _ _ h₁, hfresh]
    rfl
  have h₃ : (roomIdOf now, p₂.socketId) ∉ joinRoom st.members (roomIdOf now) p₁.socketId := by
    intro hmem
    have h := (mem_roomMembers_iff _ (roomIdOf now) p₂.socketId).mpr hmem
    rw [h₂] at h
    simp at h
    exact hne h.symm
  have h₄ : roomMembers
      (joinRoom (joinRoom st.members (roomIdOf now) p₁.socketId) (roomIdOf now) p₂.socketId)
      (roomIdOf now) = [p₁.socketId, p₂.socketId] := by
    rw [roomMembers_joinRoom_new _ _ _ h₃, h₂]
    rfl
  constructor
  · simp [tryMatch, hq, h₄]
  · exact getRandomProblem_mem rand

/-- C7 witness: pairing "a" and "b" at time 3 sends each exactly one
`matchFound` with identical room and problem, and the problem is from the
catalog. -/
theorem C7_single_match_found_witness :
    (tryMatch 3 0 ⟨[⟨"a", "ua"⟩, ⟨"b", "ub"⟩], [], []⟩).2 =
      [("a", Msg.matchFound (roomIdOf 3) (getRandomProblem 0)),
       ("b", Msg.matchFound (roomIdOf 3) (getRandomProblem 0))] ∧
    getRandomProblem 0 ∈ problems :=
  C7_single_match_found ⟨[⟨"a", "ua"⟩, ⟨"b", "ub"⟩], [], []⟩ 3 0
    ⟨"a", "ua"⟩ ⟨"b", "ub"⟩ [] rfl (by decide) rfl

/-! ### Claim C8: any connection can finish any session -/

/-- C8: nothing restricts finalization to the session's participants: a
`submitCorrectSolution` from any connection — here one that is not a player
of the room — still deletes the active room and broadcasts `gameOver`
declaring that connection the winner. -/
theorem C8_any_connection_finishes (st : ServerState) (c rid : String) (room : Room)
    (now : Nat)
    (h : mapGet st.rooms rid = some room)
    (hf : room.finished = false)
    (hout : ∀ p ∈ room.players, p.socketId ≠ c) :
    submitCorrectSolution c rid now st =
      ({ st with rooms := mapDelete st.rooms rid },
       (roomMembers st.members rid).map (fun s => (s, Msg.gameOver c now))) := by
  simp [submitCorrectSolution, h, hf]

/-- C8 witness: "z", a stranger to `roomA`, finishes it and is declared
winner to both actual participants. -/
theorem C8_any_connection_finishes_witness :
    submitCorrectSolution "z" "room-7" 11 stA =
      ({ stA with rooms := mapDelete stA.rooms "room-7" },
       (roomMembers stA.members "room-7").map (fun s => (s, Msg.gameOver "z" 11))) :=
  C8_any_connection_finishes stA "z" "room-7" roomA 11 (by decide) rfl (by decide)

/-! ### Further helper lemmas for disconnect cleanup -/

theorem removeFromQueue_not_mem (c : String) (q : List Player)
    (h : q.countP (fun p => p.socketId == c) ≤ 1) :
    ∀ p ∈ removeFromQueue c q, p.socketId ≠ c := by
  induction q with
  | nil => simp [removeFromQueue]
  | cons x rest ih =>
    simp only [List.countP_cons] at h
    by_cases hx : x.socketId = c
    · simp only [removeFromQueue, if_pos hx]
      have hone : (if (fun p => p.socketId == c) x = true then 1 else 0) = 1 := by
        simp [hx]
      rw [hone] at h
      intro p hp hpc
      have hpos : 0 < rest.countP (fun p => p.socketId == c) :=
        List.countP_pos_iff.mpr ⟨p, hp, by simp [hpc]⟩
      omega
    · simp only [removeFromQueue, if_neg hx]
      intro p hp
      rcases List.mem_cons.mp hp with h₁ | h₁
      · subst h₁
        exact hx
      · have hzero : (if (fun p => p.socketId == c) x = true then 1 else 0) = 0 := by
          simp [hx]
        rw [hzero] at h
        exact ih (by omega) p h₁

theorem mapGet_eq_none_of_not_mem_keys (m : List (String × Room)) (k : String)
    (h : k ∉ m.map Prod.fst) : mapGet m k = none := by
  induction m with
  | nil => rfl
  | cons kv rest ih =>
    obtain ⟨k₁, v₁⟩ := kv
    simp only [List.map_cons, List.mem_cons] at h
    push_neg at h
    have hne : k₁ ≠ k := fun he => h.1 he.symm
    simp only [mapGet, if_neg hne]
    exact ih h.2

/-! ### Claim C6: disconnect cleanup -/

/-- C6: on a connection close, the socket id is removed from the waiting
queue; if it is a participant of (exactly) one active session, that session
is deleted from the registry, the other participant receives exactly one
`opponentDisconnected`, and any later submission naming that session's roomId
is a complete no-op; when the socket is in neither the queue nor any session,
the queue, the registry and the outbound traffic are unchanged. -/
theorem C6_disconnect_cleanup (st : ServerState) (c : String) :
    ((∀ p ∈ st.queue, p.socketId ≠ c) →
     (∀ kv ∈ st.rooms, ∀ p ∈ kv.2.players, p.socketId ≠ c) →
      (disconnect c st).1.queue = st.queue ∧
      (disconnect c st).1.rooms = st.rooms ∧
      (disconnect c st).2 = []) ∧
    (∀ l rid room r a b,
      st.rooms = l ++ (rid, room) :: r →
      (∀ kv ∈ l ++ r, ∀ p ∈ kv.2.players, p.socketId ≠ c) →
      room.players = [a, b] →
      ((a.socketId = c ∧ b.socketId ≠ c) ∨ (b.socketId = c ∧ a.socketId ≠ c)) →
      roomMembers st.members rid = [a.socketId, b.socketId] →
      (st.rooms.map Prod.fst).Nodup →
      st.queue.countP (fun p => p.socketId == c) ≤ 1 →
      (disconnect c st).1.rooms = l ++ r ∧
      (∀ p ∈ (disconnect c st).1.queue, p.socketId ≠ c) ∧
      (disconnect c st).2 =
        [(if a.socketId = c then b.socketId else a.socketId, Msg.opponentDisconnected)] ∧
      ∀ c₂ now₂, submitCorrectSolution c₂ rid now₂ (disconnect c st).1 =
        ((disconnect c st).1, [])) := by
  constructor
  · intro hq hr
    have hn := handleDisconnectRooms_none c st.rooms hr
    have hrq := removeFromQueue_of_not_mem c st.queue hq
    refine ⟨?_, ?_, ?_⟩ <;> simp [disconnect, hn, hrq]
  · intro l rid room r a b hrooms hlr hplayers hor hmem hnodup hcount
    have hl : ∀ kv ∈ l, ∀ p ∈ kv.2.players, p.socketId ≠ c :=
      fun kv hkv => hlr kv (List.mem_append.mpr (Or.inl hkv))
    have hit : ∃ p ∈ room.players, p.socketId = c := by
      rcases hor with ⟨ha, _⟩ | ⟨hb, _⟩
      · exact ⟨a, by simp [hplayers], ha⟩
      · exact ⟨b, by simp [hplayers], hb⟩
    have hfound := handleDisconnectRooms_found c rid room l r hl hit
    have hmsg : roomMembers (leaveAll st.members c) rid =
        [if a.socketId = c then b.socketId else a.socketId] := by
      rw [roomMembers_leaveAll, hmem]
      rcases hor with ⟨ha, hb⟩ | ⟨hb, ha⟩
      · simp [List.filter_cons, ha, hb]
      · simp [List.filter_cons, hb, ha]
    refine ⟨?_, ?_, ?_, ?_⟩
    · simp [disconnect, hrooms, hfound]
    · have hq : (disconnect c st).1.queue = removeFromQueue c st.queue := by
        simp [disconnect, hrooms, hfound]
      rw [hq]
      exact removeFromQueue_not_mem c st.queue hcount
    · simp [disconnect, hrooms, hfound, hmsg]
    · intro c₂ now₂
      have hrooms₂ : (disconnect c st).1.rooms = l ++ r := by
        simp [disconnect, hrooms, hfound]
      have hmid : (rid :: (l.map Prod.fst ++ r.map Prod.fst)).Nodup := by
        rw [← List.nodup_middle]
        rw [hrooms] at hnodup
        simpa using hnodup
      have hkey : rid ∉ (l ++ r).map Prod.fst := by
        rw [List.map_append]
        exact (List.nodup_cons.mp hmid).1
      have hnone : mapGet (disconnect c st).1.rooms rid = none := by
        rw [hrooms₂]
        exact mapGet_eq_none_of_not_mem_keys _ _ hkey
      simp [submitCorrectSolution, hnone]

/-- C6 witness: disconnecting "a" in `stA` empties the registry, notifies
exactly "b", and a later submission by "b" for "room-7" is a no-op. -/
theorem C6_disconnect_cleanup_witness :
    (disconnect "a" stA).1.rooms = [] ∧
    (disconnect "a" stA).2 = [("b", Msg.opponentDisconnected)] ∧
    submitCorrectSolution "b" "room-7" 20 (disconnect "a" stA).1 =
      ((disconnect "a" stA).1, []) := by
  have h := (C6_disconnect_cleanup stA "a").2 [] "room-7" roomA [] ⟨"a", "ua"⟩ ⟨"b", "ub"⟩
    rfl (by simp) rfl (Or.inl ⟨rfl, by decide⟩) (by decide) (by decide) (by decide)
  refine ⟨h.1, ?_, h.2.2.2 "b" 20⟩
  have h₃ := h.2.2.1
  simpa using h₃
